import Mathlib

/-!
Verification of the safety-validated file-operations layer and staged
release pipeline of `scripts/build.py`.

Modelling conventions:
* A canonical (fully resolved) absolute path is a `List String` of its
  components below the filesystem root; `[]` is the root `/`.  The
  operating system's symlink/`..` resolution (`Path.resolve`) is outside
  the program text, so operations take the already-resolved path; claims
  about "any path that canonically resolves to X" quantify over the
  resolved form.
* `Path.relative_to` on resolved paths succeeds exactly when the base's
  component list is a prefix of the path's component list, and
  `Path.parent` drops the last component (the root is its own parent).
* The filesystem is a finite association list from canonical paths to
  nodes (directory, or file with contents).
* `BuildError` messages are modelled by the constructors of `BErr`, one
  per `raise BuildError(...)` site; uncaught Python exceptions
  (`json.JSONDecodeError`, `FileNotFoundError`, ...) are `Err.unexpected`.
-/

namespace Build

/-- A node of the modelled filesystem: a directory or a file with contents. -/
inductive Node where
  | dir
  | file (content : String)
  deriving DecidableEq, Repr

/-- The filesystem: a finite map from canonical paths to nodes,
as an association list. -/
abbrev FS := List (List String × Node)

/-- One constructor per `raise BuildError(...)` site of `build.py`,
carrying the data interpolated into the message. -/
inductive BErr where
  | outsideProject (p pd : List String)
  | gitProtected (p : List String)
  | outsideOutput (p od : List String)
  | notDirectChild (p : List String)
  | notAFile (p : List String)
  | notADirectory (p : List String)
  | notAllowed (p : List String)
  | infoJsonMissing
  | versionFieldMissing
  | nameFieldMissing
  | changelogMissing
  | noVersionInChangelog
  | infoVersionFormat (v : String)
  | changelogVersionFormat (v : String)
  | versionMismatch (iv cv : String)
  | previousVersionFormat (v : String)
  | sevenZipMissing
  | backupFailed (stderr : String)
  | factorioMissing
  | factorioFailed
  | tagExists (v : String)
  | previousTagMissing (v : String)
  | ghMissing
  | packageMissing (p : List String)
  deriving DecidableEq, Repr

/-- A run-aborting failure: a classified `BuildError`, or an uncaught
Python exception (caught only by the catch-all in `run`). -/
inductive Err where
  | build (e : BErr)
  | unexpected (msg : String)
  deriving DecidableEq, Repr

namespace SafeFileOps

/-- `SafeFileOps._is_git_path`: the (resolved) path is
`project_dir/.git` or lies beneath it. -/
def is_git_path (pd p : List String) : Bool :=
  let gitDir := pd ++ [".git"]
  p == gitDir || gitDir.isPrefixOf p

/-- `SafeFileOps._validate_path_in_project`: the resolved path must be
inside `project_dir` (`relative_to` succeeds), and unless `allow_git`
is set it must not be the `.git` directory or anything beneath it. -/
def validate_path_in_project (pd p : List String) (allow_git : Bool) :
    Except Err (List String) :=
  if pd.isPrefixOf p then
    if !allow_git && is_git_path pd p then
      .error (.build (.gitProtected p))
    else
      .ok p
  else
    .error (.build (.outsideProject p pd))

/-- `SafeFileOps._validate_path_in_output`: the resolved path must be
inside `output_dir` and its immediate parent must be exactly
`output_dir`. -/
def validate_path_in_output (od p : List String) : Except Err (List String) :=
  if od.isPrefixOf p then
    if p.dropLast = od then
      .ok p
    else
      .error (.build (.notDirectChild p))
  else
    .error (.build (.outsideOutput p od))

/-- Association-list lookup in the filesystem. -/
def lookupFS (fs : FS) (p : List String) : Option Node :=
  List.lookup p fs

/-- `path.is_file()` on the modelled filesystem. -/
def isFileFS (fs : FS) (p : List String) : Bool :=
  match lookupFS fs p with
  | some (.file _) => true
  | _ => false

/-- `path.is_dir()` on the modelled filesystem. -/
def isDirFS (fs : FS) (p : List String) : Bool :=
  match lookupFS fs p with
  | some .dir => true
  | _ => false

/-- `path.unlink()`: remove exactly the entry at `p`. -/
def unlinkFS (fs : FS) (p : List String) : FS :=
  fs.filter (fun e => !(e.1 == p))

/-- `shutil.rmtree(p)`: remove `p` and every entry beneath it. -/
def rmtreeFS (fs : FS) (p : List String) : FS :=
  fs.filter (fun e => !(p.isPrefixOf e.1))

/-- `SafeFileOps.safe_unlink`: validate (project containment, `.git`
protection), require an existing plain file, then delete it. -/
def safe_unlink (pd : List String) (fs : FS) (p : List String) :
    Except Err FS :=
  match validate_path_in_project pd p false with
  | .error e => .error e
  | .ok validated =>
    if isFileFS fs validated then
      .ok (unlinkFS fs validated)
    else
      .error (.build (.notAFile validated))

/-- `SafeFileOps.safe_rmtree`: validate (project containment, `.git`
protection), require an existing directory, then delete the tree. -/
def safe_rmtree (pd : List String) (fs : FS) (p : List String) :
    Except Err FS :=
  match validate_path_in_project pd p false with
  | .error e => .error e
  | .ok validated =>
    if isDirFS fs validated then
      .ok (rmtreeFS fs validated)
    else
      .error (.build (.notADirectory validated))

/-- Writing through `open(validated, mode)`: overwriting a directory
raises `IsADirectoryError` (uncaught); otherwise the file is created or
replaced. -/
def fsWriteFile (fs : FS) (p : List String) (content : String) :
    Except Err FS :=
  match lookupFS fs p with
  | some .dir => .error (.unexpected "IsADirectoryError")
  | _ => .ok (fs.filter (fun e => !(e.1 == p)) ++ [(p, .file content)])

/-- `SafeFileOps.safe_write`: first try project containment (with `.git`
protection), else output containment (direct child), else reject. -/
def safe_write (pd od : List String) (fs : FS) (p : List String)
    (content : String) : Except Err FS :=
  if pd.isPrefixOf p then
    match validate_path_in_project pd p false with
    | .error e => .error e
    | .ok validated => fsWriteFile fs validated content
  else if od.isPrefixOf p then
    match validate_path_in_output od p with
    | .error e => .error e
    | .ok validated => fsWriteFile fs validated content
  else
    .error (.build (.notAllowed p))

/-- `SafeFileOps.safe_mkdir` (as called with `exist_ok=True`): validate
within the project, then create the directory; an existing directory is
fine, an existing file raises `FileExistsError` (uncaught). -/
def safe_mkdir (pd : List String) (fs : FS) (p : List String) :
    Except Err FS :=
  match validate_path_in_project pd p false with
  | .error e => .error e
  | .ok validated =>
    match lookupFS fs validated with
    | some .dir => .ok fs
    | some (.file _) => .error (.unexpected "FileExistsError")
    | none => .ok (fs ++ [(validated, .dir)])

end SafeFileOps

namespace ModBuilder

/-- A character of Python's `\s` class (ASCII range). -/
def pySpaceChar (c : Char) : Bool :=
  c = ' ' || c = '\t' || c = '\n' || c = '\r' || c = '\x0b' || c = '\x0c'

/-- Python's `str.startswith`, on the underlying character lists. -/
def py_startswith (s pre : String) : Bool :=
  pre.data.isPrefixOf s.data

/-- The version normalization of `extract_version_from_info_json`:
prepend `v` when the string does not already start with it. -/
def normalize_version (version : String) : String :=
  if py_startswith version "v" then version else "v" ++ version

/-- The tail of the pattern `^v\d+\.\d+\.\d+$` after the leading `v`:
three nonempty digit groups separated by dots, then the end of the
string (Python's `$` also matches just before one final newline). -/
def version_core (cs : List Char) : Bool :=
  let a := cs.takeWhile Char.isDigit
  let r1 := cs.dropWhile Char.isDigit
  if a.isEmpty then false else
  match r1 with
  | '.' :: r2 =>
    let b := r2.takeWhile Char.isDigit
    let r3 := r2.dropWhile Char.isDigit
    if b.isEmpty then false else
    match r3 with
    | '.' :: r4 =>
      let c := r4.takeWhile Char.isDigit
      let r5 := r4.dropWhile Char.isDigit
      !c.isEmpty && (r5 == [] || r5 == ['\n'])
    | _ => false
  | _ => false

/-- `ModBuilder.validate_version_format`:
`re.match(r'^v\d+\.\d+\.\d+$', version)` is truthy. -/
def validate_version_format (version : String) : Bool :=
  match version.data with
  | 'v' :: rest => version_core rest
  | _ => false

/-- One attempted match of `Version:\s*(\d+\.\d+\.\d+)` whose leading
`V` has just been consumed: on success, the captured group and the
number of further characters consumed. -/
def matchVersionTail (cs : List Char) : Option (List Char × Nat) :=
  match cs with
  | 'e' :: 'r' :: 's' :: 'i' :: 'o' :: 'n' :: ':' :: r0 =>
    let ws := r0.takeWhile pySpaceChar
    let r1 := r0.dropWhile pySpaceChar
    let a := r1.takeWhile Char.isDigit
    let r2 := r1.dropWhile Char.isDigit
    if a.isEmpty then none else
    match r2 with
    | '.' :: r3 =>
      let b := r3.takeWhile Char.isDigit
      let r4 := r3.dropWhile Char.isDigit
      if b.isEmpty then none else
      match r4 with
      | '.' :: r5 =>
        let c := r5.takeWhile Char.isDigit
        if c.isEmpty then none else
        some (a ++ '.' :: b ++ '.' :: c,
          7 + ws.length + a.length + 1 + b.length + 1 + c.length)
      | _ => none
    | _ => none
  | _ => none

/-- `re.findall(r'Version:\s*(\d+\.\d+\.\d+)', content)`: scan left to
right, resuming after the end of each successful match. -/
def findall_versions : List Char → List String
  | [] => []
  | ch :: rest =>
    if ch = 'V' then
      match matchVersionTail rest with
      | some (cap, n) => String.mk cap :: findall_versions (rest.drop n)
      | none => findall_versions rest
    else findall_versions rest
termination_by cs => cs.length
decreasing_by
  all_goals simp [List.length_drop]
  omega

/-- `ModBuilder.extract_versions_from_changelog`, on the changelog file
contents: first match (with `v` prepended) is the current version, the
second if any the previous one. -/
def extract_versions_of_content (content : String) :
    Except Err (String × Option String) :=
  match findall_versions content.data with
  | [] => .error (.build .noVersionInChangelog)
  | m0 :: ms =>
    .ok ("v" ++ m0, match ms with
      | [] => none
      | m1 :: _ => some ("v" ++ m1))

/-- Python's `str.endswith`, on the underlying character lists. -/
def py_endswith (s suf : String) : Bool :=
  suf.data.isSuffixOf s.data

/-- The directory names `build_zip_package` prunes from the `os.walk`
listing (pruning happens at every visited level, not only at the root). -/
def excluded_dirs : List String := [".git", "scripts", "tmp"]

/-- File names the packaging loop skips: existing archives and backup
files. -/
def skip_file_name (name : String) : Bool :=
  py_endswith name ".zip" || py_endswith name ".7z" || py_endswith name "~"

/-- A named file tree, the input of the modelled `os.walk`. -/
inductive FsTree where
  | file (name : String)
  | dir (name : String) (children : List FsTree)

mutual

/-- Archive entry paths contributed by one tree node during the
packaging walk: a file keeps `pre ++ [name]` unless its name carries a
skipped suffix; a directory named `.git`, `scripts` or `tmp` is pruned
(`os.walk` re-applies the pruning to every listing), any other
directory is walked.  (`os.walk` emits a directory's files before
descending; this flattening interleaves them instead, producing the
same set of entries.) -/
def zip_one (pre : List String) : FsTree → List (List String)
  | .file n => if skip_file_name n then [] else [pre ++ [n]]
  | .dir n cs =>
    if excluded_dirs.contains n then [] else zip_list (pre ++ [n]) cs

/-- Archive entry paths contributed by a directory listing. -/
def zip_list (pre : List String) : List FsTree → List (List String)
  | [] => []
  | t :: ts => zip_one pre t ++ zip_list pre ts

end

/-- `ModBuilder.build_zip_package`: the archive entry paths produced by
walking the project-root listing, re-rooted under `version_name`
(`<mod_name>_<version-without-v>`). -/
def build_zip_entries (version_name : String)
    (rootChildren : List FsTree) : List (List String) :=
  zip_list [version_name] rootChildren

/-- The tree holds a plain file at the given relative path. -/
def tree_has_file : List FsTree → List String → Bool
  | ts, [n] => ts.any fun t =>
      match t with
      | .file m => m == n
      | .dir _ _ => false
  | ts, n :: rel2 => ts.any fun t =>
      match t with
      | .dir m cs => m == n && tree_has_file cs rel2
      | .file _ => false
  | _, [] => false
termination_by _ rel => rel.length

/-- The file at relative path `rel` survives the packaging walk: none
of its ancestor directories is named `.git`, `scripts` or `tmp`, and
its name has no archive/backup suffix. -/
def included_rel (ts : List FsTree) (rel : List String) : Bool :=
  tree_has_file ts rel &&
    rel.dropLast.all (fun d => !(excluded_dirs.contains d)) &&
    !(skip_file_name ((rel.getLast?).getD ""))

/-- Modelled from the spec's words for claim C8 ("every file under
ProjectRoot except the version-control metadata directory, a designated
scripts subdirectory, a designated temp subdirectory, and any file
already carrying an archive-type extension or a backup-marker suffix"):
a relative file path is excluded only when its TOPMOST directory is the
project root's own `.git`, `scripts` or `tmp` subdirectory, or its file
name carries a skipped suffix. -/
def spec_zip_includes (rel : List String) : Bool :=
  (match rel.dropLast with
   | [] => true
   | d :: _ => !(excluded_dirs.contains d)) &&
  !(skip_file_name ((rel.getLast?).getD ""))

/-- `Path.iterdir` on the project directory: the immediate children of
`root` present in the filesystem, with their node, in entry order. -/
def childrenOf (fs : FS) (root : List String) : List (String × Node) :=
  fs.filterMap fun e =>
    match e.1.reverse with
    | [] => none
    | n :: revParent => if revParent.reverse == root then some (n, e.2) else none

/-- The loop body of `ModBuilder.clean_project_directory`: skip `.git`,
`safe_unlink` plain files, `safe_rmtree` directories (the `is_file` /
`is_dir` tests consult the current filesystem). -/
def clean_loop (pd : List String) :
    List (String × Node) → FS → Except Err FS
  | [], fs => .ok fs
  | (n, _) :: rest, fs =>
    if n = ".git" then clean_loop pd rest fs
    else if SafeFileOps.isFileFS fs (pd ++ [n]) then
      match SafeFileOps.safe_unlink pd fs (pd ++ [n]) with
      | .error e => .error e
      | .ok fs1 => clean_loop pd rest fs1
    else if SafeFileOps.isDirFS fs (pd ++ [n]) then
      match SafeFileOps.safe_rmtree pd fs (pd ++ [n]) with
      | .error e => .error e
      | .ok fs1 => clean_loop pd rest fs1
    else clean_loop pd rest fs

/-- `ModBuilder.clean_project_directory`: remove every immediate child
of the project directory except `.git`, through the safe wrappers. -/
def clean_project_directory (pd : List String) (fs : FS) : Except Err FS :=
  clean_loop pd (childrenOf fs pd) fs

/-- Python's `str.strip()` with no argument (ASCII whitespace). -/
def py_strip (s : String) : String :=
  String.mk (((s.data.dropWhile pySpaceChar).reverse.dropWhile
    pySpaceChar).reverse)

/-- Python's `file.readlines()`: split into lines, each keeping its
trailing newline; a final fragment without a newline is kept as is. -/
def read_lines (s : String) : List String :=
  match (s.splitOn "\n").reverse with
  | [] => []
  | last :: revInit =>
    (revInit.reverse.map (fun l => l ++ "\n")) ++
      (if last = "" then [] else [last])

/-- The text transformation of `extract_changelog_for_release`: drop 3
header lines, keep lines before the first `----` separator, remove the
2-space display indentation, reinsert a blank line before unindented
section headers, and strip the result. -/
def extract_changelog_text (content : String) : String :=
  let lines := (read_lines content).drop 3
  let changes := lines.takeWhile (fun l => !(py_startswith (py_strip l) "----"))
  let changes := changes.map
    (fun l => if py_startswith l "  " then String.mk (l.data.drop 2) else l)
  let withBreaks := changes.enum.map (fun pair =>
    match pair.2.data with
    | [] => pair.2
    | c0 :: _ => if pair.1 > 0 && !(pySpaceChar c0)
        then "\n" ++ pair.2 else pair.2)
  py_strip (String.join withBreaks)

/-- The two string fields of `info.json` the script reads. -/
structure InfoData where
  name : Option String
  version : Option String
  deriving DecidableEq, Repr

/-- The user's reply at the confirmation prompt: affirmative, negative,
or `Ctrl-C` (`KeyboardInterrupt`). -/
inductive Answer where
  | yes
  | no
  | interrupt
  deriving DecidableEq, Repr

/-- The two external command kinds of `RemoteCommandWrapper`. -/
inductive CmdKind where
  | git
  | gh
  deriving DecidableEq, Repr

/-- A queued external command (`RemoteCommandWrapper.commands` entry). -/
structure Cmd where
  kind : CmdKind
  args : List String
  description : String
  deriving DecidableEq, Repr

/-- The environment outside the modelled filesystem: the parse of
`info.json`, availability and results of the external tools, the
`git tag -l` answers, and the user's reply at the prompt. -/
structure Env where
  info_json : Option (Except String InfoData)
  seven_z_available : Bool
  seven_za_available : Bool
  seven_z_exit_zero : Bool
  backup_stderr : String
  factorio_exists : Bool
  factorio_exit_zero : Bool
  answer : Answer
  tag_exists : String → Bool
  gh_available : Bool

/-- The mutable fields of `ModBuilder` threaded through the run,
together with the filesystem and the deferred command queue. -/
structure St where
  fs : FS
  commands : List Cmd
  version : Option String
  previous_version : Option String
  mod_name : Option String
  zip_name : Option String
  backup_name : Option String
  deriving DecidableEq, Repr

/-- The state of a freshly constructed `ModBuilder`: empty queue, no
version fields populated yet. -/
def initSt (fs : FS) : St :=
  ⟨fs, [], none, none, none, none, none⟩

/-- `ModBuilder.extract_version_from_info_json`: missing file, JSON
parse failure (an uncaught `json.JSONDecodeError`), missing `version`
or `name` field, then normalization; returns the mod name and the
normalized version. -/
def extract_version_from_info_json (env : Env) :
    Except Err (String × String) :=
  match env.info_json with
  | none => .error (.build .infoJsonMissing)
  | some (.error e) => .error (.unexpected e)
  | some (.ok d) =>
    match d.version with
    | none => .error (.build .versionFieldMissing)
    | some ver =>
      match d.name with
      | none => .error (.build .nameFieldMissing)
      | some nm => .ok (nm, normalize_version ver)

/-- Reading `changelog.txt`: the script checks existence (a
`BuildError`) and then opens the file (a directory raises an uncaught
`IsADirectoryError`). -/
def read_changelog (pd : List String) (fs : FS) : Except Err String :=
  match SafeFileOps.lookupFS fs (pd ++ ["changelog.txt"]) with
  | none => .error (.build .changelogMissing)
  | some .dir => .error (.unexpected "IsADirectoryError")
  | some (.file c) => .ok c

/-- `ModBuilder.validate_versions`: extract both versions, check the
`vX.Y.Z` format of each, require textual equality, and check the
previous version's format when present. -/
def validate_versions (pd : List String) (env : Env) (st : St) :
    Except Err St :=
  match extract_version_from_info_json env with
  | .error e => .error e
  | .ok (nm, info_version) =>
    match read_changelog pd st.fs with
    | .error e => .error e
    | .ok content =>
      match extract_versions_of_content content with
      | .error e => .error e
      | .ok (changelog_version, prev) =>
        if !(validate_version_format info_version) then
          .error (.build (.infoVersionFormat info_version))
        else if !(validate_version_format changelog_version) then
          .error (.build (.changelogVersionFormat changelog_version))
        else if info_version ≠ changelog_version then
          .error (.build (.versionMismatch info_version changelog_version))
        else
          match prev with
          | some p =>
            if !(validate_version_format p) then
              .error (.build (.previousVersionFormat p))
            else
              .ok { st with
                    version := some info_version,
                    previous_version := prev,
                    mod_name := some nm }
          | none =>
            .ok { st with
                  version := some info_version,
                  previous_version := prev,
                  mod_name := some nm }

/-- `ModBuilder.build_zip_package` at the pipeline level: compute the
archive name, validate the output path, create the archive file.  (The
archive bytes are not modelled here; the entry set is `zip_list`.)
An unset `version`/`mod_name` would raise an uncaught `TypeError`. -/
def build_zip_package (pd : List String) (st : St) : Except Err St :=
  match st.version, st.mod_name with
  | some v, some nm =>
    let version_number :=
      if py_startswith v "v" then String.mk (v.data.drop 1) else v
    let version_name := nm ++ "_" ++ version_number
    let zip_name := version_name ++ ".zip"
    let od := pd.dropLast
    match SafeFileOps.validate_path_in_output od (od ++ [zip_name]) with
    | .error e => .error e
    | .ok zp =>
      match SafeFileOps.fsWriteFile st.fs zp "" with
      | .error e => .error e
      | .ok fs2 => .ok { st with zip_name := some zip_name, fs := fs2 }
  | _, _ => .error (.unexpected "NoneType")

/-- `ModBuilder.create_backup`: compute the backup name, validate the
output path, require `7z` or `7za`, fail on a non-zero exit, otherwise
the external archiver creates the backup file. -/
def create_backup (pd : List String) (env : Env) (st : St) :
    Except Err St :=
  match st.version, st.mod_name with
  | some v, some nm =>
    let backup_name := nm ++ "_" ++ v ++ "_backup.7z"
    let od := pd.dropLast
    match SafeFileOps.validate_path_in_output od (od ++ [backup_name]) with
    | .error e => .error e
    | .ok bp =>
      if env.seven_z_available || env.seven_za_available then
        if env.seven_z_exit_zero then
          match SafeFileOps.fsWriteFile st.fs bp "" with
          | .error e => .error e
          | .ok fs2 =>
            .ok { st with backup_name := some backup_name, fs := fs2 }
        else .error (.build (.backupFailed env.backup_stderr))
      else .error (.build .sevenZipMissing)
  | _, _ => .error (.unexpected "NoneType")

/-- The cleanup stage wrapper inside `run`. -/
def clean_stage (pd : List String) (st : St) : Except Err St :=
  match clean_project_directory pd st.fs with
  | .error e => .error e
  | .ok fs2 => .ok { st with fs := fs2 }

/-- `ModBuilder.run_factorio`: missing executable or non-zero exit both
raise a `BuildError`. -/
def run_factorio (env : Env) : Except Err Unit :=
  if env.factorio_exists then
    if env.factorio_exit_zero then .ok ()
    else .error (.build .factorioFailed)
  else .error (.build .factorioMissing)

/-- `ModBuilder.verify_previous_tag`: nothing to do without a previous
version; otherwise the matching tag must exist. -/
def verify_previous_tag (env : Env) (st : St) : Except Err Unit :=
  match st.previous_version with
  | none => .ok ()
  | some p =>
    if env.tag_exists p then .ok ()
    else .error (.build (.previousTagMissing p))

/-- `ModBuilder.create_git_tag`: abort if the target tag already
exists, otherwise queue (never execute) the tag and push commands. -/
def create_git_tag (env : Env) (st : St) : Except Err St :=
  match st.version with
  | none => .error (.unexpected "NoneType")
  | some v =>
    if env.tag_exists v then .error (.build (.tagExists v))
    else .ok { st with commands := st.commands ++
      [⟨.git, ["tag", "-a", v, "-m", "Release " ++ v], "Create tag " ++ v⟩,
       ⟨.git, ["push", "origin", v], "Push tag to remote"⟩] }

/-- Render a canonical path for a command argument. -/
def path_string (p : List String) : String :=
  "/" ++ String.intercalate "/" p

/-- `ModBuilder.extract_changelog_for_release`: create `tmp` through
the safe wrapper, read the changelog (no existence check here, so a
missing file raises an uncaught `FileNotFoundError`), transform the
text and write it to `tmp/changes.txt` through the safe wrapper. -/
def extract_changelog_for_release (pd : List String) (st : St) :
    Except Err (String × St) :=
  match SafeFileOps.safe_mkdir pd st.fs (pd ++ ["tmp"]) with
  | .error e => .error e
  | .ok fs1 =>
    match SafeFileOps.lookupFS fs1 (pd ++ ["changelog.txt"]) with
    | none => .error (.unexpected "FileNotFoundError")
    | some .dir => .error (.unexpected "IsADirectoryError")
    | some (.file content) =>
      let text := extract_changelog_text content
      match SafeFileOps.safe_write pd pd.dropLast fs1
          (pd ++ ["tmp", "changes.txt"]) text with
      | .error e => .error e
      | .ok fs2 => .ok (text, { st with fs := fs2 })

/-- `ModBuilder.create_github_release`: require the `gh` CLI, extract
the changelog, require the package file to exist, then queue (never
execute) the release command. -/
def create_github_release (pd : List String) (env : Env) (st : St) :
    Except Err St :=
  if env.gh_available then
    match extract_changelog_for_release pd st with
    | .error e => .error e
    | .ok (_, st1) =>
      match st1.version, st1.zip_name with
      | some v, some zn =>
        let zip_path := pd.dropLast ++ [zn]
        if (SafeFileOps.lookupFS st1.fs zip_path).isSome then
          .ok { st1 with commands := st1.commands ++
            [⟨.gh, ["release", "create", v, path_string zip_path, "-t",
                "Version " ++ v, "-F",
                path_string (pd ++ ["tmp", "changes.txt"])],
              "Create GitHub release for " ++ v⟩] }
        else .error (.build (.packageMissing zip_path))
      | _, _ => .error (.unexpected "NoneType")
  else .error (.build .ghMissing)

/-- `RemoteCommandWrapper.print_all_commands`: empty queue prints
nothing; otherwise a banner, a `cd`, and each command prefixed by its
description comment, in FIFO order. -/
def print_all_commands (pd : List String) (cmds : List Cmd) : String :=
  if cmds.isEmpty then "" else
    let sep := String.mk (List.replicate 70 '=')
    let kindStr := fun k => match k with
      | CmdKind.git => "git"
      | CmdKind.gh => "gh"
    let body := String.join (cmds.map (fun c =>
      (if c.description ≠ "" then "# " ++ c.description ++ "\n" else "") ++
        String.intercalate " " (kindStr c.kind :: c.args) ++ "\n\n"))
    "\n" ++ sep ++ "\nREMOTE COMMANDS TO RUN MANUALLY:\n" ++ sep ++
      "\n\ncd " ++ path_string pd ++ "\n\n" ++ body ++ sep

/-- How a run ended, besides normal completion: a caught error
(`BuildError` or the catch-all), the user declining the confirmation
(`return`, not an error), or `KeyboardInterrupt` at the prompt. -/
inductive PA where
  | err (e : Err)
  | declined
  | interrupted
  deriving DecidableEq, Repr

/-- The observable outcome of `ModBuilder.run`: the process exit
status, the final state, and how the run ended. -/
structure Terminated where
  exit : Nat
  st : St
  abort : Option PA
  deriving DecidableEq, Repr

/-- `ModBuilder.run`: the strictly ordered pipeline with its
`try/except` mapping — any `BuildError`, `KeyboardInterrupt` or
unexpected exception exits with status 1; completion and the
user-declined confirmation return normally (exit status 0). -/
def pipeline_run (pd : List String) (env : Env)
    (skip_factorio skip_clean : Bool) (st0 : St) : Terminated :=
  match validate_versions pd env st0 with
  | .error e => ⟨1, st0, some (.err e)⟩
  | .ok st1 =>
    match build_zip_package pd st1 with
    | .error e => ⟨1, st1, some (.err e)⟩
    | .ok st2 =>
      match create_backup pd env st2 with
      | .error e => ⟨1, st2, some (.err e)⟩
      | .ok st3 =>
        match (if skip_clean then .ok st3 else clean_stage pd st3 :
            Except Err St) with
        | .error e => ⟨1, st3, some (.err e)⟩
        | .ok st4 =>
          match (if skip_factorio then .ok () else run_factorio env :
              Except Err Unit) with
          | .error e => ⟨1, st4, some (.err e)⟩
          | .ok _ =>
            match env.answer with
            | .interrupt => ⟨1, st4, some .interrupted⟩
            | .no => ⟨0, st4, some .declined⟩
            | .yes =>
              match verify_previous_tag env st4 with
              | .error e => ⟨1, st4, some (.err e)⟩
              | .ok _ =>
                match create_git_tag env st4 with
                | .error e => ⟨1, st4, some (.err e)⟩
                | .ok st5 =>
                  match create_github_release pd env st5 with
                  | .error e => ⟨1, st5, some (.err e)⟩
                  | .ok st6 => ⟨0, st6, none⟩

/-- An error that is neither the missing-previous-tag nor the
tag-already-exists `BuildError` (used to classify which stages can
produce the tag-verification aborts). -/
def not_tag_err (e : Err) : Prop :=
  (∀ p, e ≠ .build (.previousTagMissing p)) ∧
    ∀ v, e ≠ .build (.tagExists v)

/-- A project filesystem fixture: the project root `/p` holding one
changelog file with the given contents. -/
def fs_with_changelog (c : String) : FS :=
  [(["p"], .dir), (["p", "changelog.txt"], .file c)]

/-- Environment fixture: `info.json` carries the given name/version,
all external tools available and succeeding, the user answers yes, and
`git tag -l` output is governed by `tags`. -/
def env_fixture (nm ver : String) (tags : String → Bool) : Env :=
  { info_json := some (.ok { name := some nm, version := some ver }),
    seven_z_available := true,
    seven_za_available := true,
    seven_z_exit_zero := true,
    backup_stderr := "",
    factorio_exists := true,
    factorio_exit_zero := true,
    answer := .yes,
    tag_exists := tags,
    gh_available := true }

end ModBuilder

end Build

open Build Build.SafeFileOps

/-- C1: a delete-class operation (`safe_unlink`, `safe_rmtree`) whose
resolved target is the `.git` directory or lies beneath it always fails
with the `.git`-protection `BuildError` and performs no deletion. -/
theorem git_delete_always_fails (pd : List String) (fs : FS)
    (p : List String) (h : is_git_path pd p = true) :
    safe_unlink pd fs p = .error (.build (.gitProtected p)) ∧
      safe_rmtree pd fs p = .error (.build (.gitProtected p)) := by
  have hpd : pd.isPrefixOf p = true := by
    simp only [is_git_path, Bool.or_eq_true, beq_iff_eq,
      List.isPrefixOf_iff_prefix] at h
    rw [List.isPrefixOf_iff_prefix]
    rcases h with h | h
    · exact ⟨[".git"], by simp [h]⟩
    · exact ((pd.prefix_append [".git"]).trans h)
  constructor <;>
    simp [safe_unlink, safe_rmtree, validate_path_in_project, hpd, h]

/-- Witness for C1 at a concrete input. -/
theorem git_delete_always_fails_witness :
    is_git_path ["home", "proj"] ["home", "proj", ".git", "HEAD"] = true ∧
      safe_unlink ["home", "proj"] [] ["home", "proj", ".git", "HEAD"] =
        .error (.build (.gitProtected ["home", "proj", ".git", "HEAD"])) :=
  ⟨by decide,
   (git_delete_always_fails ["home", "proj"] []
      ["home", "proj", ".git", "HEAD"] (by decide)).1⟩

/-- C2 (counterexample): `_validate_path_in_project` with the default
`allow_git=False` rejects `/p/.git` even though it is a descendant of
the root `/p`, so success is not equivalent to descendance alone. -/
theorem validate_in_project_not_iff_descendant :
    List.isPrefixOf ["p"] ["p", ".git"] = true ∧
      validate_path_in_project ["p"] ["p", ".git"] false ≠
        .ok ["p", ".git"] := by
  refine ⟨by decide, fun h => ?_⟩
  rw [show validate_path_in_project ["p"] ["p", ".git"] false =
      .error (.build (.gitProtected ["p", ".git"])) from rfl] at h
  exact Except.noConfusion h

/-- C2 (amended): `_validate_path_in_project` succeeds (returning the
path unchanged) iff the resolved path is the project root or a
descendant of it, and additionally — unless `allow_git` is set — is not
the `.git` directory nor beneath it.  In particular a sibling whose
name merely has the root's name as a string prefix is rejected, since
containment is component-wise. -/
theorem validate_in_project_ok_iff (pd p : List String) (allow_git : Bool) :
    validate_path_in_project pd p allow_git = .ok p ↔
      (pd.isPrefixOf p = true ∧
        (allow_git = true ∨ is_git_path pd p = false)) := by
  unfold validate_path_in_project
  constructor
  · intro h
    by_cases hpd : pd.isPrefixOf p
    · refine ⟨hpd, ?_⟩
      by_cases hg : is_git_path pd p
      · cases allow_git with
        | false => simp [hpd, hg] at h
        | true => exact Or.inl rfl
      · exact Or.inr (by simp [hg])
    · simp [hpd] at h
  · rintro ⟨hpd, hg⟩
    rcases hg with hg | hg <;> simp [hpd, hg]

/-- C3: an output-directory write target whose resolved immediate parent
is not exactly the output root is always rejected by
`_validate_path_in_output` — in particular paths nested deeper beneath
the output root. -/
theorem output_write_requires_direct_child (od p : List String)
    (h : p.dropLast ≠ od) :
    ∃ e, validate_path_in_output od p = .error (.build e) := by
  unfold validate_path_in_output
  by_cases hpre : od.isPrefixOf p
  · exact ⟨.notDirectChild p, by simp [hpre, h]⟩
  · exact ⟨.outsideOutput p od, by simp [hpre]⟩

/-- Witness for C3: a target nested one level down inside the output
root is rejected. -/
theorem output_write_requires_direct_child_witness :
    (["out", "sub", "f.zip"].dropLast ≠ ["out"]) ∧
      ∃ e, validate_path_in_output ["out"] ["out", "sub", "f.zip"] =
        .error (.build e) :=
  ⟨by decide,
   output_write_requires_direct_child ["out"] ["out", "sub", "f.zip"]
     (by decide)⟩

open Build.ModBuilder

/-- C7: `"1.2.3"` and `"v1.2.3"` both normalize to `"v1.2.3"` and are
accepted by the `vX.Y.Z` format check, while `"1.2"`, `"1.2.3a"` and
`"v1.2.3 "` are all rejected after normalization. -/
theorem version_normalization_strict :
    normalize_version "1.2.3" = "v1.2.3" ∧
      normalize_version "v1.2.3" = "v1.2.3" ∧
      validate_version_format (normalize_version "1.2.3") = true ∧
      validate_version_format (normalize_version "v1.2.3") = true ∧
      validate_version_format (normalize_version "1.2") = false ∧
      validate_version_format (normalize_version "1.2.3a") = false ∧
      validate_version_format (normalize_version "v1.2.3 ") = false := by
  refine ⟨rfl, rfl, ?_, ?_, ?_, ?_, ?_⟩ <;> decide

/-- A membership cannot coexist with a failed lookup. -/
theorem lookup_some_of_mem {fs : FS} {k : List String} {nd : Node}
    (h : (k, nd) ∈ fs) : ∃ w, List.lookup k fs = some w := by
  induction fs with
  | nil => cases h
  | cons e rest ih =>
    rcases List.mem_cons.1 h with h | h
    · exact ⟨e.2, by simp [List.lookup, ← h]⟩
    · by_cases hk : k = e.1
      · exact ⟨e.2, by simp [List.lookup, hk]⟩
      · obtain ⟨w, hw⟩ := ih h
        exact ⟨w, by simp [List.lookup, beq_eq_false_iff_ne.mpr hk, hw]⟩

/-- An immediate child of the project directory named other than `.git`
is not a git path. -/
theorem is_git_path_child (pd : List String) {n : String} (h : n ≠ ".git") :
    is_git_path pd (pd ++ [n]) = false := by
  simp only [is_git_path, Bool.or_eq_false_iff, beq_eq_false_iff_ne, ne_eq]
  refine ⟨fun he => h ?_, ?_⟩
  · simpa using List.append_cancel_left he
  · rw [Bool.eq_false_iff]
    intro hpre
    rw [List.isPrefixOf_iff_prefix, List.prefix_append_right_inj] at hpre
    obtain ⟨t, ht⟩ := hpre
    have ht2 := ht.symm
    simp at ht2
    exact h ht2.1

/-- `pd` is a prefix of each of its immediate children. -/
theorem isPrefixOf_child (pd : List String) (n : String) :
    pd.isPrefixOf (pd ++ [n]) = true := by
  rw [List.isPrefixOf_iff_prefix]
  exact pd.prefix_append [n]

/-- `safe_unlink` on an existing plain file directly inside the project
(not named `.git`) succeeds and removes exactly that entry. -/
theorem safe_unlink_child {pd : List String} {fs : FS} {n : String}
    (hgit : n ≠ ".git") (hf : isFileFS fs (pd ++ [n]) = true) :
    safe_unlink pd fs (pd ++ [n]) = .ok (unlinkFS fs (pd ++ [n])) := by
  unfold safe_unlink validate_path_in_project
  simp [isPrefixOf_child, is_git_path_child pd hgit, hf]

/-- `safe_rmtree` on an existing directory directly inside the project
(not named `.git`) succeeds and removes the subtree. -/
theorem safe_rmtree_child {pd : List String} {fs : FS} {n : String}
    (hgit : n ≠ ".git") (hd : isDirFS fs (pd ++ [n]) = true) :
    safe_rmtree pd fs (pd ++ [n]) = .ok (rmtreeFS fs (pd ++ [n])) := by
  unfold safe_rmtree validate_path_in_project
  simp [isPrefixOf_child, is_git_path_child pd hgit, hd]

/-- Entries surviving `unlinkFS` were already present. -/
theorem unlinkFS_subset {fs : FS} {p : List String} {e : List String × Node}
    (h : e ∈ unlinkFS fs p) : e ∈ fs :=
  (List.mem_filter.1 h).1

/-- Entries surviving `rmtreeFS` were already present. -/
theorem rmtreeFS_subset {fs : FS} {p : List String} {e : List String × Node}
    (h : e ∈ rmtreeFS fs p) : e ∈ fs :=
  (List.mem_filter.1 h).1

/-- `unlinkFS` keeps every entry at a different path. -/
theorem mem_unlinkFS {fs : FS} {p : List String} {e : List String × Node}
    (he : e ∈ fs) (hne : e.1 ≠ p) : e ∈ unlinkFS fs p :=
  List.mem_filter.2 ⟨he, by simp [hne]⟩

/-- `rmtreeFS` keeps every entry not under the removed root. -/
theorem mem_rmtreeFS {fs : FS} {p : List String} {e : List String × Node}
    (he : e ∈ fs) (hne : ¬ p <+: e.1) : e ∈ rmtreeFS fs p :=
  List.mem_filter.2 ⟨he, by
    simp only [Bool.not_eq_eq_eq_not, Bool.not_true, Bool.not_eq_true]
    rw [Bool.eq_false_iff]
    intro hc
    exact hne (List.isPrefixOf_iff_prefix.1 hc)⟩

/-- The unlinked path itself is gone. -/
theorem not_mem_unlinkFS (fs : FS) (p : List String) (nd : Node) :
    (p, nd) ∉ unlinkFS fs p := by
  intro h
  have := (List.mem_filter.1 h).2
  simp at this

/-- The removed tree root itself is gone. -/
theorem not_mem_rmtreeFS (fs : FS) (p : List String) (nd : Node) :
    (p, nd) ∉ rmtreeFS fs p := by
  intro h
  have := (List.mem_filter.1 h).2
  have h2 : p.isPrefixOf p = true :=
    List.isPrefixOf_iff_prefix.2 (List.prefix_refl p)
  simp [h2] at this

/-- An entry of the `.git` subtree (or the project root itself) never
sits at an immediate child path named other than `.git`, nor under it. -/
theorem protected_not_under_child {pd : List String} {n : String}
    {q : List String} (hgit : n ≠ ".git")
    (hq : pd ++ [".git"] <+: q ∨ q = pd) : ¬ pd ++ [n] <+: q := by
  intro hc
  rcases hq with hq | hq
  · rcases List.prefix_or_prefix_of_prefix hc hq with h | h
    · have := List.IsPrefix.eq_of_length h (by simp)
      exact hgit (by simpa using List.append_cancel_left this)
    · have := List.IsPrefix.eq_of_length h (by simp)
      exact hgit (by simpa using (List.append_cancel_left this).symm)
  · subst hq
    have := List.IsPrefix.length_le hc
    simp at this

/-- Invariant of the cleanup loop: it never fails, only removes entries,
preserves the `.git` subtree and the project root, and deletes each
listed non-`.git` immediate child. -/
theorem clean_loop_spec (pd : List String) (items : List (String × Node)) :
    ∀ fs : FS, ∃ fs', clean_loop pd items fs = .ok fs' ∧
      (∀ e, e ∈ fs' → e ∈ fs) ∧
      (∀ e, e ∈ fs → (pd ++ [".git"] <+: e.1 ∨ e.1 = pd) → e ∈ fs') ∧
      (∀ x ∈ items, x.1 ≠ ".git" → ∀ nd, (pd ++ [x.1], nd) ∉ fs') := by
  induction items with
  | nil =>
    intro fs
    exact ⟨fs, rfl, fun _ he => he, fun _ he _ => he, by simp⟩
  | cons x rest ih =>
    intro fs
    obtain ⟨n, nd0⟩ := x
    by_cases hgit : n = ".git"
    · subst hgit
      obtain ⟨fs', h1, h2, h3, h4⟩ := ih fs
      refine ⟨fs', by simpa [clean_loop] using h1, h2, h3, ?_⟩
      intro x hx hne nd
      rcases List.mem_cons.1 hx with hx | hx
      · exact absurd (congrArg Prod.fst hx) hne
      · exact h4 x hx hne nd
    · by_cases hf : isFileFS fs (pd ++ [n])
      · obtain ⟨fs', h1, h2, h3, h4⟩ := ih (unlinkFS fs (pd ++ [n]))
        refine ⟨fs', ?_, ?_, ?_, ?_⟩
        · simpa [clean_loop, hgit, hf, safe_unlink_child hgit hf] using h1
        · exact fun e he => unlinkFS_subset (h2 e he)
        · intro e he hp
          exact h3 e (mem_unlinkFS he (fun hc =>
            protected_not_under_child hgit hp (hc ▸ List.prefix_refl _))) hp
        · intro x hx hne nd
          rcases List.mem_cons.1 hx with hx | hx
          · intro hmem
            have hx1 : x.1 = n := congrArg Prod.fst hx
            rw [hx1] at hmem
            exact not_mem_unlinkFS fs (pd ++ [n]) nd (h2 _ hmem)
          · exact h4 x hx hne nd
      · by_cases hd : isDirFS fs (pd ++ [n])
        · obtain ⟨fs', h1, h2, h3, h4⟩ := ih (rmtreeFS fs (pd ++ [n]))
          refine ⟨fs', ?_, ?_, ?_, ?_⟩
          · simpa [clean_loop, hgit, hf, hd, safe_rmtree_child hgit hd] using h1
          · exact fun e he => rmtreeFS_subset (h2 e he)
          · intro e he hp
            exact h3 e (mem_rmtreeFS he (protected_not_under_child hgit hp)) hp
          · intro x hx hne nd
            rcases List.mem_cons.1 hx with hx | hx
            · intro hmem
              have hx1 : x.1 = n := congrArg Prod.fst hx
              rw [hx1] at hmem
              exact not_mem_rmtreeFS fs (pd ++ [n]) nd (h2 _ hmem)
            · exact h4 x hx hne nd
        · obtain ⟨fs', h1, h2, h3, h4⟩ := ih fs
          refine ⟨fs', by simpa [clean_loop, hgit, hf, hd] using h1, h2, h3, ?_⟩
          intro x hx hne nd
          rcases List.mem_cons.1 hx with hx | hx
          · intro hmem
            have hx1 : x.1 = n := congrArg Prod.fst hx
            rw [hx1] at hmem
            obtain ⟨w, hw⟩ := lookup_some_of_mem (h2 _ hmem)
            cases w with
            | dir => exact absurd (by simp [isDirFS, lookupFS, hw]) hd
            | file c => exact absurd (by simp [isFileFS, lookupFS, hw]) hf
          · exact h4 x hx hne nd

/-- An entry at an immediate-child path appears in `childrenOf`. -/
theorem childrenOf_mem {fs : FS} {root : List String} {n : String}
    {nd : Node} (h : (root ++ [n], nd) ∈ fs) :
    (n, nd) ∈ childrenOf fs root := by
  unfold childrenOf
  rw [List.mem_filterMap]
  exact ⟨(root ++ [n], nd), h, by simp⟩

/-- C5: cleanup never raises an error, removes no entry it should not
(the result is a sub-filesystem), leaves the `.git` subtree and the
project root untouched, and deletes every immediate child of the
project directory other than `.git` — in particular, on a project
holding only `.git` and one regular file, the file is removed and the
protected subtree survives. -/
theorem clean_project_directory_spec (pd : List String) (fs : FS) :
    ∃ fs', clean_project_directory pd fs = .ok fs' ∧
      (∀ e, e ∈ fs' → e ∈ fs) ∧
      (∀ e, e ∈ fs → (pd ++ [".git"] <+: e.1 ∨ e.1 = pd) → e ∈ fs') ∧
      (∀ n, n ≠ ".git" → ∀ nd : Node, (pd ++ [n], nd) ∉ fs') := by
  obtain ⟨fs', h1, h2, h3, h4⟩ := clean_loop_spec pd (childrenOf fs pd) fs
  refine ⟨fs', h1, h2, h3, fun n hn nd hmem => ?_⟩
  exact h4 (n, nd) (childrenOf_mem (h2 _ hmem)) hn nd hmem


/-- No file sits at an empty relative path. -/
theorem tree_has_file_nil_path (ts : List FsTree) :
    tree_has_file ts [] = false := by
  simp [tree_has_file]

/-- The empty listing holds no file. -/
theorem tree_has_file_nil (rel : List String) :
    tree_has_file [] rel = false := by
  rcases rel with _ | ⟨c, _ | ⟨c2, rest⟩⟩ <;> simp [tree_has_file]

/-- `tree_has_file` distributes over a cons of the listing. -/
theorem tree_has_file_cons (t : FsTree) (ts : List FsTree)
    (rel : List String) :
    tree_has_file (t :: ts) rel =
      (tree_has_file [t] rel || tree_has_file ts rel) := by
  rcases rel with _ | ⟨c, _ | ⟨c2, rest⟩⟩ <;>
    simp [tree_has_file, List.any_cons]

/-- A singleton file listing holds exactly its own name as a path. -/
theorem tree_has_file_single_file (fn : String) (rel : List String) :
    tree_has_file [FsTree.file fn] rel = true ↔ rel = [fn] := by
  rcases rel with _ | ⟨c, _ | ⟨c2, rest⟩⟩
  · simp [tree_has_file]
  · rw [show tree_has_file [FsTree.file fn] [c] = (fn == c) by
      simp only [tree_has_file, List.any_cons, List.any_nil, Bool.or_false]]
    rw [beq_iff_eq]
    exact ⟨fun h => by rw [h], fun h => by injection h with h1; rw [h1]⟩
  · simp [tree_has_file]

/-- A singleton directory listing holds a path iff the path enters it. -/
theorem tree_has_file_single_dir (dn : String) (cs : List FsTree)
    (rel : List String) :
    tree_has_file [FsTree.dir dn cs] rel = true ↔
      ∃ rel2, rel = dn :: rel2 ∧ tree_has_file cs rel2 = true := by
  rcases rel with _ | ⟨c, _ | ⟨c2, rest⟩⟩
  · simp [tree_has_file]
  · constructor
    · intro h
      simp [tree_has_file] at h
    · rintro ⟨rel2, h1, h2⟩
      cases rel2 with
      | nil => rw [tree_has_file_nil_path] at h2; cases h2
      | cons a b => simp at h1
  · constructor
    · intro h
      simp only [tree_has_file, List.any_cons, List.any_nil,
        Bool.or_false, Bool.and_eq_true, beq_iff_eq] at h
      exact ⟨c2 :: rest, by rw [h.1], h.2⟩
    · rintro ⟨rel2, h1, h2⟩
      injection h1 with h1a h1b
      subst h1a
      subst h1b
      simp only [tree_has_file, List.any_cons, List.any_nil,
        Bool.or_false, Bool.and_eq_true, beq_iff_eq]
      exact ⟨trivial, h2⟩

/-- `included_rel` over an empty listing is false. -/
theorem included_rel_nil (rel : List String) :
    included_rel [] rel = false := by
  unfold included_rel
  rw [tree_has_file_nil]
  simp

/-- `included_rel` distributes over a cons of the listing. -/
theorem included_rel_cons (t : FsTree) (ts : List FsTree)
    (rel : List String) :
    included_rel (t :: ts) rel = true ↔
      (included_rel [t] rel = true ∨ included_rel ts rel = true) := by
  unfold included_rel
  rw [tree_has_file_cons]
  cases hA : tree_has_file [t] rel <;> cases hB : tree_has_file ts rel <;>
    simp [hA, hB]

/-- `included_rel` at a single file: the path is the file's name and the
name has no skipped suffix. -/
theorem included_rel_single_file (fn : String) (rel : List String) :
    included_rel [FsTree.file fn] rel = true ↔
      rel = [fn] ∧ skip_file_name fn = false := by
  simp only [included_rel, Bool.and_eq_true, tree_has_file_single_file]
  constructor
  · rintro ⟨⟨hrel, -⟩, hskip⟩
    subst hrel
    simp only [List.getLast?_singleton, Option.getD_some] at hskip
    exact ⟨rfl, by simpa using hskip⟩
  · rintro ⟨hrel, hskip⟩
    subst hrel
    simp [hskip]

/-- `included_rel` at a single directory: the path enters the directory,
the directory is not pruned, and the rest is included below. -/
theorem included_rel_single_dir (dn : String) (cs : List FsTree)
    (rel : List String) :
    included_rel [FsTree.dir dn cs] rel = true ↔
      ∃ rel2, rel = dn :: rel2 ∧ excluded_dirs.contains dn = false ∧
        included_rel cs rel2 = true := by
  constructor
  · intro h
    simp only [included_rel, Bool.and_eq_true, tree_has_file_single_dir] at h
    obtain ⟨⟨⟨rel2, hrel, hhas⟩, hall⟩, hskip⟩ := h
    subst hrel
    rcases rel2 with _ | ⟨c2, rest⟩
    · rw [tree_has_file_nil_path] at hhas; cases hhas
    · rw [List.dropLast_cons₂, List.all_cons, Bool.and_eq_true] at hall
      obtain ⟨hdn, hall2⟩ := hall
      rw [List.getLast?_cons_cons] at hskip
      refine ⟨c2 :: rest, rfl, by simpa using hdn, ?_⟩
      simp only [included_rel, Bool.and_eq_true]
      exact ⟨⟨hhas, hall2⟩, hskip⟩
  · rintro ⟨rel2, hrel, hdn, hq⟩
    subst hrel
    simp only [included_rel, Bool.and_eq_true] at hq
    obtain ⟨⟨hhas, hall2⟩, hskip⟩ := hq
    rcases rel2 with _ | ⟨c2, rest⟩
    · rw [tree_has_file_nil_path] at hhas; cases hhas
    · simp only [included_rel, Bool.and_eq_true]
      refine ⟨⟨(tree_has_file_single_dir dn cs _).2
        ⟨c2 :: rest, rfl, hhas⟩, ?_⟩, ?_⟩
      · rw [List.dropLast_cons₂, List.all_cons, Bool.and_eq_true]
        exact ⟨by simpa using hdn, hall2⟩
      · rw [List.getLast?_cons_cons]
        exact hskip

mutual

/-- Membership in the archive paths contributed by one walked node. -/
theorem mem_zip_one (pre : List String) (t : FsTree) (p : List String) :
    p ∈ zip_one pre t ↔
      ∃ rel, p = pre ++ rel ∧ included_rel [t] rel = true := by
  cases t with
  | file n =>
    by_cases hs : skip_file_name n = true
    · rw [zip_one, if_pos hs]
      simp only [List.not_mem_nil, false_iff, not_exists, not_and]
      rintro rel - hinc
      rw [included_rel_single_file] at hinc
      rw [hinc.2] at hs
      cases hs
    · rw [zip_one, if_neg hs, List.mem_singleton]
      constructor
      · intro h
        exact ⟨[n], h, (included_rel_single_file n [n]).2
          ⟨rfl, by simpa using hs⟩⟩
      · rintro ⟨rel, hp, hinc⟩
        rw [included_rel_single_file] at hinc
        rw [hp, hinc.1]
  | dir n cs =>
    by_cases he : excluded_dirs.contains n = true
    · rw [zip_one, if_pos he]
      simp only [List.not_mem_nil, false_iff, not_exists, not_and]
      rintro rel - hinc
      rw [included_rel_single_dir] at hinc
      obtain ⟨rel2, -, hdn, -⟩ := hinc
      rw [he] at hdn
      cases hdn
    · rw [zip_one, if_neg he]
      rw [mem_zip_list (pre ++ [n]) cs p]
      constructor
      · rintro ⟨rel2, hp, hinc⟩
        exact ⟨n :: rel2, by simpa using hp,
          (included_rel_single_dir n cs (n :: rel2)).2
            ⟨rel2, rfl, by simpa using he, hinc⟩⟩
      · rintro ⟨rel, hp, hinc⟩
        rw [included_rel_single_dir] at hinc
        obtain ⟨rel2, hrel, -, hinc2⟩ := hinc
        subst hrel
        exact ⟨rel2, by simpa using hp, hinc2⟩

/-- Membership in the archive paths contributed by a walked listing. -/
theorem mem_zip_list (pre : List String) (ts : List FsTree)
    (p : List String) :
    p ∈ zip_list pre ts ↔
      ∃ rel, p = pre ++ rel ∧ included_rel ts rel = true := by
  cases ts with
  | nil => simp [zip_list, included_rel_nil]
  | cons t ts =>
    rw [zip_list]
    rw [List.mem_append, mem_zip_one pre t p, mem_zip_list pre ts p]
    constructor
    · rintro (⟨rel, hp, hinc⟩ | ⟨rel, hp, hinc⟩) <;>
        exact ⟨rel, hp, (included_rel_cons t ts rel).2 (by tauto)⟩
    · rintro ⟨rel, hp, hinc⟩
      rcases (included_rel_cons t ts rel).1 hinc with h | h
      · exact Or.inl ⟨rel, hp, h⟩
      · exact Or.inr ⟨rel, hp, h⟩

end

/-- C8 (counterexample): a file inside a NESTED directory named
`scripts` (`a/scripts/f.txt`) passes the spec's exclusion list (its
topmost directory `a` is none of the designated subdirectories and its
suffix is ordinary) and exists in the walked tree, yet the built
archive omits it, because `build_zip_package` prunes directories named
`scripts` at every depth, not only directly under the project root. -/
theorem build_zip_nested_scripts_counterexample :
    spec_zip_includes ["a", "scripts", "f.txt"] = true ∧
      tree_has_file
        [FsTree.dir "a" [FsTree.dir "scripts" [FsTree.file "f.txt"]]]
        ["a", "scripts", "f.txt"] = true ∧
      ["m_1.0.0", "a", "scripts", "f.txt"] ∉
        build_zip_entries "m_1.0.0"
          [FsTree.dir "a" [FsTree.dir "scripts" [FsTree.file "f.txt"]]] := by
  refine ⟨by decide, ?_, ?_⟩
  · simp [tree_has_file]
  · simp [build_zip_entries, zip_list, zip_one, excluded_dirs]

/-- C8 (amended): the built archive contains exactly the files of the
project tree whose relative paths pass under no directory named `.git`,
`scripts` or `tmp` at ANY depth and whose names carry no `.zip`, `.7z`
or `~` suffix, each entry re-rooted under the single synthetic
top-level directory `version_name`
(`<mod_name>_<version-without-v-prefix>`). -/
theorem build_zip_entries_mem (version_name : String)
    (ts : List FsTree) (p : List String) :
    p ∈ build_zip_entries version_name ts ↔
      ∃ rel, p = version_name :: rel ∧
        tree_has_file ts rel = true ∧
        rel.dropLast.all (fun d => !(excluded_dirs.contains d)) = true ∧
        skip_file_name ((rel.getLast?).getD "") = false := by
  rw [build_zip_entries, mem_zip_list]
  constructor
  · rintro ⟨rel, hp, hinc⟩
    simp only [included_rel, Bool.and_eq_true] at hinc
    exact ⟨rel, by simpa using hp, hinc.1.1, hinc.1.2,
      by simpa using hinc.2⟩
  · rintro ⟨rel, hp, h1, h2, h3⟩
    refine ⟨rel, by simpa using hp, ?_⟩
    simp only [included_rel, Bool.and_eq_true]
    exact ⟨⟨h1, h2⟩, by simpa using h3⟩

/-- `takeWhile`/`dropWhile` on a list all of whose elements satisfy the
predicate. -/
theorem takeWhile_all_of {p : Char → Bool} {c : List Char}
    (hc : ∀ x ∈ c, p x = true) :
    c.takeWhile p = c ∧ c.dropWhile p = [] := by
  induction c with
  | nil => simp
  | cons a r ih =>
    have ha : p a = true := hc a (List.mem_cons_self _ _)
    have ih2 := ih (fun x hx => hc x (List.mem_cons_of_mem _ hx))
    rw [List.takeWhile_cons, List.dropWhile_cons]
    simp [ha, ih2.1, ih2.2]

/-- `takeWhile`/`dropWhile` split at the first failing element. -/
theorem takeWhile_append_stop {p : Char → Bool} {a : List Char} {y : Char}
    {r : List Char} (ha : ∀ x ∈ a, p x = true) (hy : p y = false) :
    (a ++ y :: r).takeWhile p = a ∧ (a ++ y :: r).dropWhile p = y :: r := by
  induction a with
  | nil =>
    rw [List.nil_append, List.takeWhile_cons, List.dropWhile_cons]
    simp [hy]
  | cons x xs ih =>
    have hx : p x = true := ha x (List.mem_cons_self _ _)
    have ih2 := ih (fun z hz => ha z (List.mem_cons_of_mem _ hz))
    rw [List.cons_append, List.takeWhile_cons, List.dropWhile_cons]
    simp [hx, ih2.1, ih2.2]

/-- Three nonempty digit groups joined by dots pass `version_core`. -/
theorem version_core_of_groups {a b c : List Char}
    (ha : ∀ x ∈ a, Char.isDigit x = true) (ha0 : a ≠ [])
    (hb : ∀ x ∈ b, Char.isDigit x = true) (hb0 : b ≠ [])
    (hc : ∀ x ∈ c, Char.isDigit x = true) (hc0 : c ≠ []) :
    version_core (a ++ '.' :: (b ++ '.' :: c)) = true := by
  have h1 := takeWhile_append_stop (y := '.') (r := b ++ '.' :: c) ha
    (by decide)
  have h2 := takeWhile_append_stop (y := '.') (r := c) hb (by decide)
  have h3 := takeWhile_all_of hc
  simp only [version_core, h1.1, h1.2, h2.1, h2.2, h3.1, h3.2]
  simp [List.isEmpty_iff, ha0, hb0, hc0]

/-- Every capture of `matchVersionTail` passes `version_core`. -/
theorem matchVersionTail_core {cs cap : List Char} {n : Nat}
    (h : matchVersionTail cs = some (cap, n)) :
    version_core cap = true := by
  unfold matchVersionTail at h
  split at h
  case _ r0 =>
    simp only at h
    split at h
    · exact absurd h (by simp)
    · split at h
      case _ r2 r3 =>
        split at h
        · exact absurd h (by simp)
        · split at h
          case _ r4 r5 =>
            split at h
            · exact absurd h (by simp)
            · rw [Option.some.injEq, Prod.mk.injEq] at h
              obtain ⟨hcap, -⟩ := h
              rw [← hcap, List.append_assoc, List.cons_append]
              refine version_core_of_groups
                (fun x hx => List.mem_takeWhile_imp hx) ?_
                (fun x hx => List.mem_takeWhile_imp hx) ?_
                (fun x hx => List.mem_takeWhile_imp hx) ?_
              · have hne := ‹¬(List.takeWhile Char.isDigit
                  (List.dropWhile pySpaceChar r0)).isEmpty = true›
                simpa [List.isEmpty_iff] using hne
              · have hne := ‹¬(List.takeWhile Char.isDigit r2).isEmpty = true›
                simpa [List.isEmpty_iff] using hne
              · have hne := ‹¬(List.takeWhile Char.isDigit r4).isEmpty = true›
                simpa [List.isEmpty_iff] using hne
          case _ => exact absurd h (by simp)
      case _ => exact absurd h (by simp)
  case _ => exact absurd h (by simp)

/-- Every match returned by the changelog scan, with `v` prepended,
passes the strict `vX.Y.Z` format check. -/
theorem findall_versions_valid :
    ∀ (k : Nat) (cs : List Char), cs.length ≤ k →
      ∀ m ∈ findall_versions cs,
        validate_version_format ("v" ++ m) = true := by
  intro k
  induction k with
  | zero =>
    intro cs hcs m hm
    have hnil : cs = [] := List.length_eq_zero.1 (Nat.le_zero.1 hcs)
    subst hnil
    simp [findall_versions] at hm
  | succ k ih =>
    intro cs hcs m hm
    cases cs with
    | nil => simp [findall_versions] at hm
    | cons ch rest =>
      have hrest : rest.length ≤ k := by
        simpa using Nat.succ_le_succ_iff.1 hcs
      simp only [findall_versions] at hm
      split at hm
      · split at hm
        case _ cap n hmt =>
          rcases List.mem_cons.1 hm with hm | hm
          · subst hm
            unfold validate_version_format
            have hdata : ("v" ++ String.mk cap).data = 'v' :: cap := by
              rw [String.data_append]
              rfl
            rw [hdata]
            exact matchVersionTail_core hmt
          · exact ih (rest.drop n) (le_trans (by simp) hrest) m hm
        case _ => exact ih rest hrest m hm
      · exact ih rest hrest m hm

/-- Both versions returned by `extract_versions_from_changelog` pass
the strict format check. -/
theorem extract_versions_wellformed {content : String} {cur : String}
    {prev : Option String}
    (h : extract_versions_of_content content = .ok (cur, prev)) :
    validate_version_format cur = true ∧
      ∀ p, prev = some p → validate_version_format p = true := by
  unfold extract_versions_of_content at h
  split at h
  · exact absurd h (by simp)
  case _ m0 ms hsc =>
    rw [Except.ok.injEq, Prod.mk.injEq] at h
    obtain ⟨hcur, hprev⟩ := h
    constructor
    · rw [← hcur]
      exact findall_versions_valid content.data.length content.data
        le_rfl m0 (by rw [hsc]; exact List.mem_cons_self _ _)
    · intro p hp
      rw [← hprev] at hp
      rcases ms with _ | ⟨m1, ms2⟩
      · simp at hp
      · simp only [Option.some.injEq] at hp
        rw [← hp]
        exact findall_versions_valid content.data.length content.data
          le_rfl m1 (by
            rw [hsc]
            exact List.mem_cons_of_mem _ (List.mem_cons_self _ _))

/-- `extract_version_from_info_json` never reports a changelog-version
or previous-version format error. -/
theorem info_json_err_shape {env : Env} {e : Err}
    (h : extract_version_from_info_json env = .error e) (v : String) :
    e ≠ .build (.changelogVersionFormat v) ∧
      e ≠ .build (.previousVersionFormat v) := by
  unfold extract_version_from_info_json at h
  iterate 5 (all_goals try split at h)
  all_goals (try (rw [Except.error.injEq] at h; subst h; simp))
  all_goals exact absurd h (by simp)

/-- `read_changelog` never reports a changelog-version or
previous-version format error. -/
theorem read_changelog_err_shape {pd : List String} {fs : FS} {e : Err}
    (h : read_changelog pd fs = .error e) (v : String) :
    e ≠ .build (.changelogVersionFormat v) ∧
      e ≠ .build (.previousVersionFormat v) := by
  unfold read_changelog at h
  iterate 5 (all_goals try split at h)
  all_goals (try (rw [Except.error.injEq] at h; subst h; simp))
  all_goals exact absurd h (by simp)

/-- `extract_versions_from_changelog` never reports a format error. -/
theorem extract_versions_err_shape {content : String} {e : Err}
    (h : extract_versions_of_content content = .error e) (v : String) :
    e ≠ .build (.changelogVersionFormat v) ∧
      e ≠ .build (.previousVersionFormat v) := by
  unfold extract_versions_of_content at h
  iterate 5 (all_goals try split at h)
  all_goals (try (rw [Except.error.injEq] at h; subst h; simp))
  all_goals exact absurd h (by simp)

/-- C10: every version string returned by
`extract_versions_from_changelog` is `v` prepended to a captured
`digits.digits.digits` group and so already passes the strict `vX.Y.Z`
format check; consequently the two `BuildError` branches of
`validate_versions` that report a malformed changelog version (current
or previous) can never be taken. -/
theorem changelog_version_branches_unreachable :
    (∀ content cur prev,
        extract_versions_of_content content = .ok (cur, prev) →
          validate_version_format cur = true ∧
            ∀ p, prev = some p → validate_version_format p = true) ∧
      ∀ pd env st v,
        validate_versions pd env st ≠
            .error (.build (.changelogVersionFormat v)) ∧
          validate_versions pd env st ≠
            .error (.build (.previousVersionFormat v)) := by
  refine ⟨fun content cur prev h => extract_versions_wellformed h, ?_⟩
  intro pd env st v
  have hshape : ∀ (e : Err), validate_versions pd env st = .error e →
      e ≠ .build (.changelogVersionFormat v) ∧
        e ≠ .build (.previousVersionFormat v) := by
    intro e h
    unfold validate_versions at h
    split at h
    next e1 heq =>
      rw [Except.error.injEq] at h
      subst h
      exact info_json_err_shape heq v
    next nm iv heq =>
      split at h
      next e2 hread =>
        rw [Except.error.injEq] at h
        subst h
        exact read_changelog_err_shape hread v
      next content hread =>
        split at h
        next e3 hex =>
          rw [Except.error.injEq] at h
          subst h
          exact extract_versions_err_shape hex v
        next cv prev hex =>
          by_cases h1 : validate_version_format iv = true
          · have hcv : validate_version_format cv = true :=
              (extract_versions_wellformed hex).1
            by_cases h2 : iv = cv
            · rcases prev with _ | p
              · simp [h1, hcv, h2] at h
              · have hp : validate_version_format p = true :=
                  (extract_versions_wellformed hex).2 p rfl
                simp [h1, hcv, h2, hp] at h
            · simp only [h1, hcv, Bool.not_true, Bool.false_eq_true,
                if_false, ne_eq, h2, not_false_iff, if_true,
                Except.error.injEq] at h
              subst h
              simp
          · rw [Bool.not_eq_true] at h1
            simp only [h1, Bool.not_false, if_true,
              Except.error.injEq] at h
            subst h
            simp
  constructor <;> intro hcontr
  · exact absurd rfl (hshape _ hcontr).1
  · exact absurd rfl (hshape _ hcontr).2

/-- Witness for C10 at a concrete changelog. -/
theorem changelog_version_branches_unreachable_witness :
    extract_versions_of_content "Version: 1.2.3" = .ok ("v1.2.3", none) ∧
      validate_version_format "v1.2.3" = true := by
  have hex : extract_versions_of_content "Version: 1.2.3" =
      .ok ("v1.2.3", none) := by
    simp [extract_versions_of_content, findall_versions, matchVersionTail,
      pySpaceChar]
  exact ⟨hex, (changelog_version_branches_unreachable.1 "Version: 1.2.3"
    "v1.2.3" none hex).1⟩

/-- C4 (counterexample): with metadata version `2.0` (malformed) and
changelog top entry `2.0.1`, the two normalized versions differ, yet
the run aborts with the info.json FORMAT error, not the
version-mismatch error the claim promises for every differing pair. -/
theorem version_mismatch_classification_counterexample :
    normalize_version "2.0" ≠ "v2.0.1" ∧
      (pipeline_run ["p"] (env_fixture "mod" "2.0" (fun _ => false))
          true true
          (initSt (fs_with_changelog "a\nb\nc\nVersion: 2.0.1\n"))).abort =
        some (.err (.build (.infoVersionFormat "v2.0"))) ∧
      (pipeline_run ["p"] (env_fixture "mod" "2.0" (fun _ => false))
          true true
          (initSt (fs_with_changelog "a\nb\nc\nVersion: 2.0.1\n"))).abort ≠
        some (.err (.build (.versionMismatch "v2.0" "v2.0.1"))) := by
  have h : (pipeline_run ["p"] (env_fixture "mod" "2.0" (fun _ => false))
      true true
      (initSt (fs_with_changelog "a\nb\nc\nVersion: 2.0.1\n"))).abort =
        some (.err (.build (.infoVersionFormat "v2.0"))) := by
    simp [pipeline_run, validate_versions, env_fixture, fs_with_changelog,
      extract_version_from_info_json, normalize_version, py_startswith,
      read_changelog, SafeFileOps.lookupFS, List.lookup,
      extract_versions_of_content, findall_versions, matchVersionTail,
      pySpaceChar, validate_version_format, version_core, initSt]
  refine ⟨by decide, h, ?_⟩
  rw [h]
  simp

/-- C4 (amended): when both normalized versions pass the `vX.Y.Z`
format check and differ, the run aborts with the version-mismatch
`BuildError` during the first stage (`validate_versions`): the exit
status is 1 and the state is exactly the initial one — no archive
written, no file deleted, no directory created, no command queued. -/
theorem version_mismatch_aborts_before_mutation
    (pd : List String) (env : Env) (sf sc : Bool) (fs : FS)
    (nm iv cv : String) (prev : Option String) (content : String)
    (h1 : extract_version_from_info_json env = .ok (nm, iv))
    (h2 : read_changelog pd fs = .ok content)
    (h3 : extract_versions_of_content content = .ok (cv, prev))
    (h4 : validate_version_format iv = true)
    (h5 : validate_version_format cv = true)
    (h6 : iv ≠ cv) :
    pipeline_run pd env sf sc (initSt fs) =
      ⟨1, initSt fs, some (.err (.build (.versionMismatch iv cv)))⟩ := by
  have hfs : (initSt fs).fs = fs := rfl
  have hval : validate_versions pd env (initSt fs) =
      .error (.build (.versionMismatch iv cv)) := by
    unfold validate_versions
    simp only [hfs, h1, h2, h3, h4, h5]
    simp [h6]
  unfold pipeline_run
  rw [hval]

/-- Witness for C4 (amended) at Scenario B: metadata `2.0.0`, changelog
top entry `2.0.1`. -/
theorem version_mismatch_aborts_before_mutation_witness :
    extract_version_from_info_json
        (env_fixture "mod" "2.0.0" (fun _ => false)) =
      .ok ("mod", "v2.0.0") ∧
    pipeline_run ["p"] (env_fixture "mod" "2.0.0" (fun _ => false))
        true true
        (initSt (fs_with_changelog "a\nb\nc\nVersion: 2.0.1\n")) =
      ⟨1, initSt (fs_with_changelog "a\nb\nc\nVersion: 2.0.1\n"),
        some (.err (.build (.versionMismatch "v2.0.0" "v2.0.1")))⟩ := by
  have h1 : extract_version_from_info_json
      (env_fixture "mod" "2.0.0" (fun _ => false)) = .ok ("mod", "v2.0.0") := by
    simp [extract_version_from_info_json, env_fixture, normalize_version,
      py_startswith]
  have h2 : read_changelog ["p"]
      (fs_with_changelog "a\nb\nc\nVersion: 2.0.1\n") =
        .ok "a\nb\nc\nVersion: 2.0.1\n" := by
    simp [read_changelog, fs_with_changelog, SafeFileOps.lookupFS,
      List.lookup]
  have h3 : extract_versions_of_content "a\nb\nc\nVersion: 2.0.1\n" =
      .ok ("v2.0.1", none) := by
    simp [extract_versions_of_content, findall_versions, matchVersionTail,
      pySpaceChar]
  exact ⟨h1, version_mismatch_aborts_before_mutation ["p"] _ true true _
    "mod" "v2.0.0" "v2.0.1" none _ h1 h2 h3 (by decide) (by decide)
    (by decide)⟩

/-- Project-containment validation never reports a tag error. -/
theorem validate_in_project_tag_free {pd p : List String}
    {g : Bool} {e : Err}
    (h : validate_path_in_project pd p g = .error e) : not_tag_err e := by
  unfold validate_path_in_project at h
  iterate 3 (all_goals try split at h)
  all_goals (try (rw [Except.error.injEq] at h; subst h; simp [not_tag_err]))
  all_goals exact absurd h (by simp)

/-- Output-containment validation never reports a tag error. -/
theorem validate_in_output_tag_free {od p : List String} {e : Err}
    (h : validate_path_in_output od p = .error e) : not_tag_err e := by
  unfold validate_path_in_output at h
  iterate 3 (all_goals try split at h)
  all_goals (try (rw [Except.error.injEq] at h; subst h; simp [not_tag_err]))
  all_goals exact absurd h (by simp)

/-- Writing a file never reports a tag error. -/
theorem fsWriteFile_tag_free {fs : FS} {p : List String} {c : String}
    {e : Err} (h : fsWriteFile fs p c = .error e) : not_tag_err e := by
  unfold fsWriteFile at h
  iterate 2 (all_goals try split at h)
  all_goals (try (rw [Except.error.injEq] at h; subst h; simp [not_tag_err]))
  all_goals exact absurd h (by simp)

/-- `safe_mkdir` never reports a tag error. -/
theorem safe_mkdir_tag_free {pd : List String} {fs : FS}
    {p : List String} {e : Err}
    (h : safe_mkdir pd fs p = .error e) : not_tag_err e := by
  unfold safe_mkdir at h
  split at h
  next e1 heq =>
    rw [Except.error.injEq] at h
    subst h
    exact validate_in_project_tag_free heq
  next v heq =>
    split at h
    · exact absurd h (by simp)
    · rw [Except.error.injEq] at h
      subst h
      simp [not_tag_err]
    · exact absurd h (by simp)

/-- `safe_write` never reports a tag error. -/
theorem safe_write_tag_free {pd od : List String} {fs : FS}
    {p : List String} {c : String} {e : Err}
    (h : safe_write pd od fs p c = .error e) : not_tag_err e := by
  unfold safe_write at h
  split at h
  · split at h
    next e1 heq =>
      rw [Except.error.injEq] at h
      subst h
      exact validate_in_project_tag_free heq
    next v heq => exact fsWriteFile_tag_free h
  · split at h
    · split at h
      next e1 heq =>
        rw [Except.error.injEq] at h
        subst h
        exact validate_in_output_tag_free heq
      next v heq => exact fsWriteFile_tag_free h
    · rw [Except.error.injEq] at h
      subst h
      simp [not_tag_err]

/-- `extract_changelog_for_release` never reports a tag error. -/
theorem extract_changelog_tag_free {pd : List String} {st : St} {e : Err}
    (h : extract_changelog_for_release pd st = .error e) :
    not_tag_err e := by
  unfold extract_changelog_for_release at h
  split at h
  next e1 heq =>
    rw [Except.error.injEq] at h
    subst h
    exact safe_mkdir_tag_free heq
  next fs1 heq =>
    split at h
    · rw [Except.error.injEq] at h
      subst h
      simp [not_tag_err]
    · rw [Except.error.injEq] at h
      subst h
      simp [not_tag_err]
    next content heq2 =>
      simp only [] at h
      split at h
      next e2 heq3 =>
        rw [Except.error.injEq] at h
        subst h
        exact safe_write_tag_free heq3
      next fs2 heq3 => exact absurd h (by simp)

/-- `create_github_release` never reports a tag error. -/
theorem create_github_release_tag_free {pd : List String} {env : Env}
    {st : St} {e : Err}
    (h : create_github_release pd env st = .error e) : not_tag_err e := by
  unfold create_github_release at h
  split at h
  · split at h
    next e1 heq =>
      rw [Except.error.injEq] at h
      subst h
      exact extract_changelog_tag_free heq
    next text st1 heq =>
      split at h
      next v zn =>
        simp only [] at h
        split at h
        · exact absurd h (by simp)
        · rw [Except.error.injEq] at h
          subst h
          simp [not_tag_err]
      next hnone =>
        rw [Except.error.injEq] at h
        subst h
        simp [not_tag_err]
  · rw [Except.error.injEq] at h
    subst h
    simp [not_tag_err]

/-- `validate_versions` does not touch the command queue. -/
theorem validate_versions_commands {pd : List String} {env : Env}
    {st st' : St} (h : validate_versions pd env st = .ok st') :
    st'.commands = st.commands := by
  unfold validate_versions at h
  iterate 8 (all_goals try split at h)
  all_goals first
    | (rw [Except.ok.injEq] at h; subst h; rfl)
    | simp at h

/-- `build_zip_package` does not touch the command queue. -/
theorem build_zip_package_commands {pd : List String} {st st' : St}
    (h : build_zip_package pd st = .ok st') :
    st'.commands = st.commands := by
  unfold build_zip_package at h
  iterate 8 (all_goals try simp only [] at h
             all_goals try split at h)
  all_goals first
    | (rw [Except.ok.injEq] at h; subst h; rfl)
    | simp at h

/-- `create_backup` does not touch the command queue. -/
theorem create_backup_commands {pd : List String} {env : Env}
    {st st' : St} (h : create_backup pd env st = .ok st') :
    st'.commands = st.commands := by
  unfold create_backup at h
  iterate 8 (all_goals try simp only [] at h
             all_goals try split at h)
  all_goals first
    | (rw [Except.ok.injEq] at h; subst h; rfl)
    | simp at h

/-- The cleanup stage does not touch the command queue. -/
theorem clean_stage_commands {pd : List String} {st st' : St}
    (h : clean_stage pd st = .ok st') : st'.commands = st.commands := by
  unfold clean_stage at h
  iterate 3 (all_goals try split at h)
  all_goals first
    | (rw [Except.ok.injEq] at h; subst h; rfl)
    | simp at h

/-- The optional cleanup step does not touch the command queue. -/
theorem clean_if_commands {pd : List String} {sc : Bool} {st3 st4 : St}
    (h : (if sc = true then Except.ok st3 else clean_stage pd st3) =
      .ok st4) : st4.commands = st3.commands := by
  split at h
  · rw [Except.ok.injEq] at h
    subst h
    rfl
  · exact clean_stage_commands h

/-- C6: whenever the run aborts either because a previous version is
recorded but its tag does not exist (`verify_previous_tag`) or because
the target tag for the current version already exists
(`create_git_tag`), no command was ever enqueued: the deferred queue is
empty at termination and the transcript renders as the empty string. -/
theorem abort_at_tag_stage_queue_empty
    (pd : List String) (env : Env) (sf sc : Bool) (fs : FS)
    (h : (∃ p, (pipeline_run pd env sf sc (initSt fs)).abort =
            some (.err (.build (.previousTagMissing p)))) ∨
          ∃ v, (pipeline_run pd env sf sc (initSt fs)).abort =
            some (.err (.build (.tagExists v)))) :
    (pipeline_run pd env sf sc (initSt fs)).st.commands = [] ∧
      print_all_commands pd
        (pipeline_run pd env sf sc (initSt fs)).st.commands = "" := by
  obtain ⟨res, hres⟩ : ∃ r, pipeline_run pd env sf sc (initSt fs) = r :=
    ⟨_, rfl⟩
  rw [hres] at h ⊢
  suffices hq : res.st.commands = [] by
    refine ⟨hq, ?_⟩
    rw [hq]
    rfl
  unfold pipeline_run at hres
  split at hres
  next e1 hv => rw [← hres]; rfl
  next st1 hv =>
    have hc1 : st1.commands = [] := by rw [validate_versions_commands hv]; rfl
    split at hres
    next e2 hb => rw [← hres]; exact hc1
    next st2 hb =>
      have hc2 : st2.commands = [] := by
        rw [build_zip_package_commands hb]; exact hc1
      split at hres
      next e3 hk => rw [← hres]; exact hc2
      next st3 hk =>
        have hc3 : st3.commands = [] := by
          rw [create_backup_commands hk]; exact hc2
        split at hres
        next e4 hcl => rw [← hres]; exact hc3
        next st4 hcl =>
          have hc4 : st4.commands = [] := by
            rw [clean_if_commands hcl]; exact hc3
          split at hres
          next e5 hfa => rw [← hres]; exact hc4
          next hfa =>
            split at hres
            · subst hres
              rcases h with ⟨p, hp⟩ | ⟨v, hv2⟩
              · simp at hp
              · simp at hv2
            · subst hres
              rcases h with ⟨p, hp⟩ | ⟨v, hv2⟩
              · simp at hp
              · simp at hv2
            · split at hres
              next e6 hver => rw [← hres]; exact hc4
              next hver =>
                split at hres
                next e7 htag => rw [← hres]; exact hc4
                next st5 htag =>
                  split at hres
                  next e8 hrel =>
                    subst hres
                    rcases h with ⟨p, hp⟩ | ⟨v, hv2⟩
                    · simp only [Option.some.injEq, PA.err.injEq] at hp
                      exact absurd hp
                        ((create_github_release_tag_free hrel).1 p)
                    · simp only [Option.some.injEq, PA.err.injEq] at hv2
                      exact absurd hv2
                        ((create_github_release_tag_free hrel).2 v)
                  next st6 hrel =>
                    subst hres
                    rcases h with ⟨p, hp⟩ | ⟨v, hv2⟩
                    · simp at hp
                    · simp at hv2

/-- Witness for C6 at Scenario D: previous version `v1.0.0` recorded in
the changelog but no tag exists; the run aborts at tag verification
with an empty queue. -/
theorem abort_at_tag_stage_queue_empty_witness :
    (pipeline_run ["p"] (env_fixture "mod" "1.1.0" (fun _ => false))
        true true
        (initSt (fs_with_changelog
          "a\nb\nc\nVersion: 1.1.0\n----\nVersion: 1.0.0\n"))).abort =
      some (.err (.build (.previousTagMissing "v1.0.0"))) ∧
      (pipeline_run ["p"] (env_fixture "mod" "1.1.0" (fun _ => false))
          true true
          (initSt (fs_with_changelog
            "a\nb\nc\nVersion: 1.1.0\n----\nVersion: 1.0.0\n"))).st.commands
        = [] := by
  have habort : (pipeline_run ["p"]
      (env_fixture "mod" "1.1.0" (fun _ => false)) true true
      (initSt (fs_with_changelog
        "a\nb\nc\nVersion: 1.1.0\n----\nVersion: 1.0.0\n"))).abort =
        some (.err (.build (.previousTagMissing "v1.0.0"))) := by
    simp [pipeline_run, validate_versions, env_fixture, fs_with_changelog,
      extract_version_from_info_json, normalize_version, py_startswith,
      read_changelog, SafeFileOps.lookupFS, List.lookup,
      extract_versions_of_content, findall_versions, matchVersionTail,
      pySpaceChar, validate_version_format, version_core, initSt,
      build_zip_package, SafeFileOps.validate_path_in_output,
      SafeFileOps.fsWriteFile, create_backup, run_factorio,
      verify_previous_tag, List.isPrefixOf]
  exact ⟨habort, (abort_at_tag_stage_queue_empty ["p"]
    (env_fixture "mod" "1.1.0" (fun _ => false)) true true
    (fs_with_changelog "a\nb\nc\nVersion: 1.1.0\n----\nVersion: 1.0.0\n")
    (Or.inl ⟨"v1.0.0", habort⟩)).1⟩

/-- C9: the exit status is 0 exactly when the run completed normally or
the user declined the confirmation (a clean, non-error termination),
and it is non-zero exactly when the run aborted with an error
(`BuildError` or unexpected exception) or was interrupted at the
prompt. -/
theorem exit_status_classification
    (pd : List String) (env : Env) (sf sc : Bool) (st0 : St) :
    ((pipeline_run pd env sf sc st0).exit = 0 ↔
      ((pipeline_run pd env sf sc st0).abort = none ∨
        (pipeline_run pd env sf sc st0).abort = some .declined)) ∧
      ((pipeline_run pd env sf sc st0).exit ≠ 0 ↔
        ((∃ e, (pipeline_run pd env sf sc st0).abort = some (.err e)) ∨
          (pipeline_run pd env sf sc st0).abort = some .interrupted)) := by
  obtain ⟨res, hres⟩ : ∃ r, pipeline_run pd env sf sc st0 = r := ⟨_, rfl⟩
  rw [hres]
  unfold pipeline_run at hres
  iterate 12 (all_goals try split at hres)
  all_goals subst hres
  all_goals simp
